import Mathlib

/-!
Verification of the specified storage-engine core of this repository: a
single-table, file-based transactional engine with an append-only commit
log, snapshot isolation, optimistic concurrency control, schema
enforcement/evolution, compaction and time travel. The repository ships a
notebook that only issues requests against this engine, so the engine
itself is modelled here from the specification (every such definition is
marked accordingly) and the claimed properties are proved against the
model.
-/

namespace DeltaCore

/-- A column name. -/
abbrev ColName := String

/-- A cell value. Values are opaque to the engine; absence of a column in a
row models NULL. -/
abbrev Value := String

/-- Modelled from the spec: a row is a record of named cells; a column not
bound in the row reads as NULL (§3, data files hold rows under one schema
snapshot, new columns nullable). -/
abbrev Row := List (ColName × Value)

/-- Modelled from the spec: the table schema, an ordered list of
(name, type) pairs (§3 Commit Entry). -/
abbrev Schema := List (ColName × String)

/-- Modelled from the spec: an immutable data file — a unit of storage
holding a bounded batch of rows, referenced by id from commit entries
(§3 Data File). -/
structure DataFile where
  fileId : Nat
  rows : List Row
deriving DecidableEq

/-- Modelled from the spec: the operation recorded by a commit entry
(§3 Commit Entry `operation` enum). -/
inductive Operation where
  | WRITE | DELETE | UPDATE | MERGE | OPTIMIZE | ZORDER | VACUUM | SCHEMA_CHANGE
deriving DecidableEq

/-- Modelled from the spec: one record per log version (§3 Commit Entry):
version, timestamp, operation, added files, removed file references, and
the schema on schema-changing commits. -/
structure CommitEntry where
  version : Nat
  timestamp : Nat
  operation : Operation
  addedFiles : List DataFile
  removedFiles : List Nat
  schema : Option Schema
deriving DecidableEq

/-- Modelled from the spec: the append-only ordered sequence of commit
entries — the single source of truth for table state (§4.1 Log Store). -/
abbrev Log := List CommitEntry

/-- Modelled from the spec: the error taxonomy of §7 (storage-layer
IOError is outside the model, which has no failing storage). -/
inductive LogError where
  | ConflictError | ConcurrentModificationError | SchemaMismatchError | NotFoundError
deriving DecidableEq

/-- Modelled from the spec: a materialized table snapshot
{schema, active file set} (§3 Table Snapshot); the version is the index it
was replayed to. -/
structure SnapshotState where
  activeFiles : List DataFile
  schema : Schema
deriving DecidableEq

/-- The empty table state before any commit. -/
def initState : SnapshotState := { activeFiles := [], schema := [] }

/-- Modelled from the spec: applying one commit entry to a snapshot state —
active files lose the entry's removed references and gain its added files;
a schema-changing commit installs its schema (§3, §4.2). -/
def applyCommit (st : SnapshotState) (c : CommitEntry) : SnapshotState :=
  { activeFiles :=
      st.activeFiles.filter (fun f => !(c.removedFiles.contains f.fileId)) ++ c.addedFiles,
    schema := c.schema.getD st.schema }

/-- Modelled from the spec: the Snapshot Builder's replay loop — commits
applied in increasing version order (§4.2). -/
def replayLoop (st : SnapshotState) : List CommitEntry → SnapshotState
  | [] => st
  | c :: rest => replayLoop (applyCommit st c) rest

/-- Replay the whole log from version 0. -/
def replayAll (log : Log) : SnapshotState := replayLoop initState log

/-- Modelled from the spec: the snapshot as of version `v`, built by
replaying commits 0..v (§4.2). -/
def replayUpTo (log : Log) (v : Nat) : SnapshotState :=
  replayLoop initState (log.take (v + 1))

/-- All rows of a snapshot: the concatenation of its active files' rows. -/
def allRows (st : SnapshotState) : List Row :=
  st.activeFiles.flatMap DataFile.rows

/-- The schema currently in force. -/
def currentSchema (log : Log) : Schema := (replayAll log).schema

/-- Modelled from the spec: the log head version — the version of the last
appended entry, or none for an empty log (§4.1). -/
def headVersionOpt (log : Log) : Option Nat :=
  if log.isEmpty then none else some (log.length - 1)

/-- Re-stamp an entry with the version assigned at commit time (§3:
`version` is assigned at commit time). -/
def withVersion (e : CommitEntry) (v : Nat) : CommitEntry := { e with version := v }

/-- Modelled from the spec: Log Store `append(entry, expectedVersion)` —
fails with ConflictError when the current head version differs from
`expectedVersion`; otherwise the entry becomes fully visible at the next
version via an atomic create-if-absent (§4.1). -/
def appendEntry (log : Log) (e : CommitEntry) (expectedVersion : Option Nat) :
    Except LogError Log :=
  if headVersionOpt log = expectedVersion then
    .ok (log ++ [withVersion e log.length])
  else
    .error .ConflictError

/-- Modelled from the spec: an in-flight mutation — the snapshot length it
was opened against (its readVersion), staged adds and removes, and the
predicate scope, i.e. the references of the files it reads or removes
(§3 Transaction). -/
structure Transaction where
  readLength : Nat
  stagedAdds : List DataFile
  stagedRemoves : List Nat
  scope : List Nat
deriving DecidableEq

/-- Modelled from the spec: the conflict test of §4.3 — an intervening
commit conflicts with a transaction when its removed or added files
intersect the transaction's predicate scope. -/
def conflictsWith (tx : Transaction) (c : CommitEntry) : Bool :=
  c.removedFiles.any (fun i => tx.scope.contains i) ||
  c.addedFiles.any (fun f => tx.scope.contains f.fileId)

/-- The commit entry a transaction produces when committed against `log`:
its version is the log's next version and it carries the staged adds and
removes (§3: a transaction produces at most one new commit entry). -/
def txEntry (log : Log) (tx : Transaction) (op : Operation) (ts : Nat) : CommitEntry :=
  { version := log.length, timestamp := ts, operation := op,
    addedFiles := tx.stagedAdds, removedFiles := tx.stagedRemoves, schema := none }

/-- Modelled from the spec: optimistic-concurrency commit (§4.3) — commits
after the transaction's read version are inspected; if any conflicts, the
transaction fails with ConcurrentModificationError and is discarded,
otherwise it is rebased onto the head and appended (the fast path is the
case of no intervening commit). -/
def commitTx (log : Log) (tx : Transaction) (op : Operation) (ts : Nat) :
    Except LogError Log :=
  if (log.drop tx.readLength).any (conflictsWith tx) then
    .error .ConcurrentModificationError
  else
    .ok (log ++ [txEntry log tx op ts])

/-- A file matches a row predicate when some of its rows does: the
file-level predicate scope of a DML statement. -/
def fileMatches (p : Row → Bool) (f : DataFile) : Bool := f.rows.any p

/-- Fold the maximum file id of a list of files over an accumulator. -/
def bumpFiles (m : Nat) (fs : List DataFile) : Nat :=
  fs.foldl (fun a f => max a f.fileId) m

/-- The largest file id referenced by an added file anywhere in the log;
fresh files are numbered above it (copy-on-write never reuses a file). -/
def maxFileId (log : Log) : Nat :=
  log.foldl (fun a c => bumpFiles a c.addedFiles) 0

/-- Modelled from the spec: open an UPDATE transaction (§4.3, §4.3 DML):
read the files matching the predicate under the current snapshot, stage
their removal and the addition of one fresh rewrite file in which matched
rows are replaced, with the matched files as predicate scope. -/
def beginUpdate (log : Log) (p : Row → Bool) (upd : Row → Row) : Transaction :=
  let st := replayAll log
  let matched := st.activeFiles.filter (fileMatches p)
  { readLength := log.length,
    stagedAdds := [⟨maxFileId log + 1,
      (matched.flatMap DataFile.rows).map (fun r => if p r then upd r else r)⟩],
    stagedRemoves := matched.map DataFile.fileId,
    scope := matched.map DataFile.fileId }

/-- Modelled from the spec: open a DELETE transaction (§4.3 DML): matched
files are removed and rewritten without their matching rows. -/
def beginDelete (log : Log) (p : Row → Bool) : Transaction :=
  let st := replayAll log
  let matched := st.activeFiles.filter (fileMatches p)
  { readLength := log.length,
    stagedAdds := [⟨maxFileId log + 1,
      (matched.flatMap DataFile.rows).filter (fun r => !(p r))⟩],
    stagedRemoves := matched.map DataFile.fileId,
    scope := matched.map DataFile.fileId }

/-- Append a plain WRITE commit adding one fresh file with the given rows
(an INSERT: nothing removed, schema unchanged). -/
def writeRowsLog (log : Log) (rows : List Row) (ts : Nat) : Log :=
  log ++ [{ version := log.length, timestamp := ts, operation := .WRITE,
            addedFiles := [⟨maxFileId log + 1, rows⟩], removedFiles := [],
            schema := none }]

/-- Commit a DELETE built by `beginDelete` directly against the same log
(no concurrent writer, so the OCC commit cannot conflict). -/
def deleteWhereLog (log : Log) (p : Row → Bool) (ts : Nat) : Log :=
  log ++ [txEntry log (beginDelete log p) .DELETE ts]

/-- Commit an UPDATE built by `beginUpdate` directly against the same log
(no concurrent writer, so the OCC commit cannot conflict). -/
def updateWhereLog (log : Log) (p : Row → Bool) (u : Row → Row) (ts : Nat) : Log :=
  log ++ [txEntry log (beginUpdate log p u) .UPDATE ts]

/-- The column names of a schema. -/
def schemaNames (s : Schema) : List ColName := s.map Prod.fst

/-- Modelled from the spec: `s` covers `cur` and brings at least one new
column — a column set that is a strict superset of the current schema
(§4.3 schema validation). -/
def strictSuperset (s cur : Schema) : Prop :=
  (∀ c ∈ schemaNames cur, c ∈ schemaNames s) ∧ ∃ c ∈ schemaNames s, c ∉ schemaNames cur

/-- Modelled from the spec: schema merge on evolution — the union of the
columns, existing columns first, new columns appended (and nullable, since
rows simply lack them) (§4.3). -/
def mergeSchemas (cur s : Schema) : Schema :=
  cur ++ s.filter (fun c => !((schemaNames cur).contains c.1))

/-- The SCHEMA_CHANGE commit entry an evolving write produces: the new
rows in one fresh file, no removals, and the merged schema installed. -/
def evolveEntry (log : Log) (s : Schema) (rows : List Row) (ts : Nat) : CommitEntry :=
  { version := log.length, timestamp := ts, operation := .SCHEMA_CHANGE,
    addedFiles := [⟨maxFileId log + 1, rows⟩], removedFiles := [],
    schema := some (mergeSchemas (currentSchema log) s) }

/-- Modelled from the spec: a schema-checked append (§4.3, §7): a write
whose schema equals the table's schema commits as WRITE; any other schema
is rejected with SchemaMismatchError unless the explicit schema-evolution
flag is set, in which case the schemas are merged and the commit is
recorded as SCHEMA_CHANGE. A failed write returns only the error: no entry
is appended, so the table's log and hence its active schema and state are
what they were. -/
def writeAppend (log : Log) (s : Schema) (rows : List Row) (evolve : Bool) (ts : Nat) :
    Except LogError Log :=
  if s = currentSchema log then
    .ok (log ++ [{ version := log.length, timestamp := ts, operation := .WRITE,
                   addedFiles := [⟨maxFileId log + 1, rows⟩], removedFiles := [],
                   schema := none }])
  else if evolve then
    .ok (log ++ [evolveEntry log s rows ts])
  else
    .error .SchemaMismatchError

/-- Reading a row under a schema: every schema column is reported, bound
columns with their value and absent columns as NULL (none). -/
def projectRow (s : Schema) (r : Row) : List (ColName × Option Value) :=
  s.map (fun c => (c.1, r.lookup c.1))

/-- Modelled from the spec: snapshot lookup by version — the replayed state
as of `v`, or NotFoundError when the log has no such version (§4.2). -/
def snapshotAtVersion (log : Log) (v : Nat) : Except LogError SnapshotState :=
  if v < log.length then .ok (replayUpTo log v) else .error .NotFoundError

/-- The greatest index of the list whose element is ≤ `t`, if any. -/
def lastLE (ts : List Nat) (t : Nat) : Option Nat :=
  match ts with
  | [] => none
  | x :: rest =>
    match lastLE rest t with
    | some i => some (i + 1)
    | none => if x ≤ t then some 0 else none

/-- Modelled from the spec: timestamp resolution — the latest version whose
commit timestamp is ≤ the requested timestamp (§4.2). -/
def versionAtTimestamp (log : Log) (t : Nat) : Option Nat :=
  lastLE (log.map CommitEntry.timestamp) t

/-- Modelled from the spec: snapshot lookup by timestamp, failing with
NotFoundError when no version's timestamp is ≤ t (§4.2). -/
def snapshotAtTimestamp (log : Log) (t : Nat) : Except LogError SnapshotState :=
  match versionAtTimestamp log t with
  | some v => .ok (replayUpTo log v)
  | none => .error .NotFoundError

/-- Scan a snapshot with a row predicate: the rows of the active files that
satisfy it (§4.4; per-file statistics pruning only skips files that cannot
contain a matching row, so the unpruned scan is its meaning). -/
def scan (st : SnapshotState) (p : Row → Bool) : List Row :=
  (st.activeFiles.flatMap DataFile.rows).filter p

/-- The clustering sort key of a row: its values on the cluster columns,
concatenated (a locality-preserving stand-in for the Z-order key). -/
def zorderKey (cols : List ColName) (r : Row) : String :=
  String.join (cols.map (fun c => ((r.lookup c).getD "") ++ ";"))

/-- Modelled from the spec: clustering rows by the given columns — a
reordering of the same rows (§4.5 optimize with cluster columns). -/
def clusterSort (cols : List ColName) (rows : List Row) : List Row :=
  if cols.isEmpty then rows
  else rows.mergeSort (fun a b => !(compare (zorderKey cols a) (zorderKey cols b) = .gt))

/-- Modelled from the spec: OPTIMIZE / ZORDER (§4.5) — rewrite all active
files into one fresh compacted file holding the same rows (clustered when
cluster columns are given), committed as an entry removing the old files
and adding the new one. -/
def optimizeTable (log : Log) (cols : List ColName) (ts : Nat) : Log :=
  let st := replayAll log
  log ++ [{ version := log.length, timestamp := ts,
            operation := if cols.isEmpty then .OPTIMIZE else .ZORDER,
            addedFiles := [⟨maxFileId log + 1,
              clusterSort cols (st.activeFiles.flatMap DataFile.rows)⟩],
            removedFiles := st.activeFiles.map DataFile.fileId,
            schema := none }]

/-- Modelled from the spec: a table with its physical storage — the log
plus the data files actually present on disk (§6 on-disk layout). -/
structure Table where
  log : Log
  store : List DataFile
deriving DecidableEq

/-- Fetch the physical rows of a file reference from the store. -/
def fetch (store : List DataFile) (fid : Nat) : List Row :=
  match store.find? (fun f => f.fileId = fid) with
  | some f => f.rows
  | none => []

/-- Read the table at its current version through physical storage: the
rows of the currently active file references, fetched from the store and
filtered by the predicate. -/
def readCurrent (tbl : Table) (p : Row → Bool) : List Row :=
  ((replayAll tbl.log).activeFiles.map DataFile.fileId).flatMap
    (fun fid => (fetch tbl.store fid).filter p)

/-- Modelled from the spec: zero-retention VACUUM (§4.5) — physically
delete every stored file not referenced by the current snapshot, which is
the only snapshot a zero retention window protects; it never deletes a
file the live snapshot references. -/
def vacuumZero (tbl : Table) : Table :=
  let active := (replayAll tbl.log).activeFiles.map DataFile.fileId
  { tbl with store := tbl.store.filter (fun f => active.contains f.fileId) }

/-- The matched-update action of the MERGE: assign the source row's value
for the update column into the target row, other cells unchanged. -/
def applyMatch (r : Row) (updCol : ColName) (s : Row) : Row :=
  r.map (fun cell =>
    if cell.1 = updCol then (cell.1, (s.lookup updCol).getD cell.2) else cell)

/-- Modelled from the spec: MERGE with "update on match, insert on
no-match" (§6 merge): target rows with a key match get the source's value
for the update column; source rows without a target match are inserted. -/
def mergeRows (target source : List Row) (key updCol : ColName) : List Row :=
  target.map (fun r =>
    ((source.find? (fun s => s.lookup key == r.lookup key)).map
      (applyMatch r updCol)).getD r) ++
  source.filter (fun s => !(target.any (fun r => r.lookup key == s.lookup key)))

/-- Modelled from the spec: the snapshot persisted by a checkpoint taken
at version `v` — exactly the active-file mapping the replay has reached
there (§4.2). -/
def checkpointAt (log : Log) (v : Nat) : SnapshotState := replayUpTo log v

/-- Modelled from the spec: snapshot construction that starts from a
checkpoint taken at `v0` and replays only the commits after it up to `v`
(§4.2, bounded replay cost). -/
def resumeFromCheckpoint (log : Log) (v0 v : Nat) : SnapshotState :=
  replayLoop (checkpointAt log v0) ((log.take (v + 1)).drop (v0 + 1))

/-- The log is well formed when its entries carry the versions 0,1,2,… in
order: a contiguous strictly increasing sequence with no gaps (§3
invariant). -/
def wellFormedLog (log : Log) : Prop :=
  log.map CommitEntry.version = List.range log.length

/-! ### Helper lemmas about the replay loop and file ids -/

theorem replayLoop_append (st : SnapshotState) (l1 l2 : List CommitEntry) :
    replayLoop st (l1 ++ l2) = replayLoop (replayLoop st l1) l2 := by
  induction l1 generalizing st with
  | nil => rfl
  | cons c rest ih => simpa [replayLoop] using ih (applyCommit st c)

theorem replayLoop_eq_foldl (st : SnapshotState) (l : List CommitEntry) :
    replayLoop st l = l.foldl applyCommit st := by
  induction l generalizing st with
  | nil => rfl
  | cons c rest ih => simpa [replayLoop] using ih (applyCommit st c)

theorem replayAll_append_one (log : Log) (e : CommitEntry) :
    replayAll (log ++ [e]) = applyCommit (replayAll log) e := by
  unfold replayAll
  rw [replayLoop_append]
  rfl

theorem replayUpTo_stable (log ext : Log) (v : Nat) (h : v < log.length) :
    replayUpTo (log ++ ext) v = replayUpTo log v := by
  unfold replayUpTo
  rw [List.take_append_of_le_length (by omega)]

theorem le_bumpFiles (m : Nat) (fs : List DataFile) : m ≤ bumpFiles m fs := by
  induction fs generalizing m with
  | nil => exact Nat.le_refl m
  | cons f rest ih =>
    exact Nat.le_trans (Nat.le_max_left m f.fileId) (ih (max m f.fileId))

theorem mem_le_bumpFiles (m : Nat) (fs : List DataFile) (f : DataFile) (hf : f ∈ fs) :
    f.fileId ≤ bumpFiles m fs := by
  induction fs generalizing m with
  | nil => cases hf
  | cons g rest ih =>
    rcases List.mem_cons.mp hf with h | h
    · subst h
      exact Nat.le_trans (Nat.le_max_right m f.fileId) (le_bumpFiles _ rest)
    · exact ih (max m g.fileId) h

theorem le_maxFold (log : Log) (m : Nat) :
    m ≤ log.foldl (fun a c => bumpFiles a c.addedFiles) m := by
  induction log generalizing m with
  | nil => exact Nat.le_refl m
  | cons c rest ih =>
    exact Nat.le_trans (le_bumpFiles m c.addedFiles) (ih (bumpFiles m c.addedFiles))

theorem mem_added_le_maxFold (log : Log) (m : Nat) (c : CommitEntry) (f : DataFile)
    (hc : c ∈ log) (hf : f ∈ c.addedFiles) :
    f.fileId ≤ log.foldl (fun a c => bumpFiles a c.addedFiles) m := by
  induction log generalizing m with
  | nil => cases hc
  | cons c0 rest ih =>
    rcases List.mem_cons.mp hc with h | h
    · subst h
      exact Nat.le_trans (mem_le_bumpFiles m c.addedFiles f hf) (le_maxFold rest _)
    · exact ih _ h

theorem mem_added_le_maxFileId (log : Log) (c : CommitEntry) (f : DataFile)
    (hc : c ∈ log) (hf : f ∈ c.addedFiles) : f.fileId ≤ maxFileId log :=
  mem_added_le_maxFold log 0 c f hc hf

theorem activeFiles_replayLoop_cases (l : List CommitEntry) (st : SnapshotState)
    (f : DataFile) (hf : f ∈ (replayLoop st l).activeFiles) :
    f ∈ st.activeFiles ∨ ∃ c ∈ l, f ∈ c.addedFiles := by
  induction l generalizing st with
  | nil => exact Or.inl hf
  | cons c rest ih =>
    rcases ih (applyCommit st c) hf with h | ⟨c', hc', hf'⟩
    · rcases List.mem_append.mp h with h1 | h2
      · exact Or.inl (List.mem_of_mem_filter h1)
      · exact Or.inr ⟨c, List.mem_cons_self c rest, h2⟩
    · exact Or.inr ⟨c', List.mem_cons_of_mem c hc', hf'⟩

theorem active_le_maxFileId (log : Log) (f : DataFile)
    (hf : f ∈ (replayAll log).activeFiles) : f.fileId ≤ maxFileId log := by
  rcases activeFiles_replayLoop_cases log initState f hf with h | ⟨c, hc, hfc⟩
  · cases h
  · exact mem_added_le_maxFileId log c f hc hfc

theorem wellFormed_append_one (log : Log) (e : CommitEntry) (wf : wellFormedLog log)
    (he : e.version = log.length) : wellFormedLog (log ++ [e]) := by
  unfold wellFormedLog at wf ⊢
  rw [List.map_append, List.length_append, List.map_singleton, wf, he,
    List.length_singleton, List.range_succ]

theorem mem_allRows_commitRewrite (st : SnapshotState) (e : CommitEntry)
    (q : DataFile → Bool) (newRows : List Row) (fid : Nat)
    (hadd : e.addedFiles = [⟨fid, newRows⟩])
    (hrem : e.removedFiles = (st.activeFiles.filter q).map DataFile.fileId)
    (r : Row) (hr : r ∈ allRows (applyCommit st e)) :
    (∃ f, f ∈ st.activeFiles ∧ q f = false ∧ r ∈ f.rows) ∨ r ∈ newRows := by
  unfold allRows applyCommit at hr
  rw [hadd, hrem, List.flatMap_append] at hr
  rcases List.mem_append.mp hr with h | h
  · rcases List.mem_flatMap.mp h with ⟨f, hf, hrf⟩
    rw [List.mem_filter] at hf
    obtain ⟨hf1, hf2⟩ := hf
    left
    refine ⟨f, hf1, ?_, hrf⟩
    cases hq : q f
    · rfl
    · exfalso
      have hmem : f.fileId ∈ (st.activeFiles.filter q).map DataFile.fileId :=
        List.mem_map_of_mem _ (List.mem_filter.mpr ⟨hf1, hq⟩)
      simp [hmem] at hf2
  · rcases List.mem_flatMap.mp h with ⟨f, hf, hrf⟩
    rw [List.mem_singleton] at hf
    subst hf
    exact Or.inr hrf

theorem mem_allRows_of_active (st : SnapshotState) (f : DataFile) (r : Row)
    (hf : f ∈ st.activeFiles) (hr : r ∈ f.rows) : r ∈ allRows st :=
  List.mem_flatMap.mpr ⟨f, hf, hr⟩

theorem beginUpdate_scope_le (log : Log) (p : Row → Bool) (u : Row → Row) (i : Nat)
    (hi : i ∈ (beginUpdate log p u).scope) : i ≤ maxFileId log := by
  unfold beginUpdate at hi
  rcases List.mem_map.mp hi with ⟨f, hf, rfl⟩
  exact active_le_maxFileId log f (List.mem_of_mem_filter hf)

/-! ### Concrete fixtures mirroring the demo's loan table -/

/-- A California loan row. -/
def rowCA : Row :=
  [("addr_state", "CA"), ("loan_status", "Current"), ("loan_amnt", "1000"),
   ("grade", "B"), ("id", "10")]

/-- A Washington loan row. -/
def rowWA : Row :=
  [("addr_state", "WA"), ("loan_status", "Late"), ("loan_amnt", "2000"),
   ("grade", "C"), ("id", "11")]

/-- An Iowa loan row, as inserted by the demo's streaming loop. -/
def rowIA : Row :=
  [("addr_state", "IA"), ("loan_status", "Fully Paid"), ("loan_amnt", "10000000"),
   ("grade", "A"), ("id", "1")]

/-- Data file holding the CA row. -/
def fileCA : DataFile := ⟨1, [rowCA]⟩

/-- Data file holding the WA row. -/
def fileWA : DataFile := ⟨2, [rowWA]⟩

/-- The initial loan-table schema (no zip_code column). -/
def schema0 : Schema :=
  [("addr_state", "string"), ("loan_status", "string"), ("loan_amnt", "long"),
   ("grade", "string"), ("id", "bigint")]

/-- Version-0 commit: the initial write of the CA and WA files. -/
def commit0 : CommitEntry := ⟨0, 100, .WRITE, [fileCA, fileWA], [], some schema0⟩

/-- A one-commit demo log. -/
def demoLog : Log := [commit0]

/-- The demo log after inserting the IA row at version 1. -/
def demoLog2 : Log := writeRowsLog demoLog [rowIA] 200

/-- A spare commit entry used to exercise the log store. -/
def commitW : CommitEntry := ⟨99, 300, .WRITE, [⟨7, [rowIA]⟩], [], none⟩

/-- Predicate `addr_state = CA`. -/
def pCA : Row → Bool := fun r => r.lookup "addr_state" == some "CA"

/-- Predicate `addr_state = WA`. -/
def pWA : Row → Bool := fun r => r.lookup "addr_state" == some "WA"

/-- Predicate `addr_state = IA`. -/
def pIA : Row → Bool := fun r => r.lookup "addr_state" == some "IA"

/-- Assignment `grade = A` of the demo's concurrent updates. -/
def uGradeA : Row → Row :=
  fun r => r.map (fun c => if c.1 = "grade" then (c.1, "A") else c)

/-- A concrete in-flight transaction: the demo's CA update. -/
def txDemo : Transaction := beginUpdate demoLog pCA uGradeA

/-- The incompatible schema of the demo's `incorrect_data` frame: same
columns but `loan_amnt` typed as a string. -/
def schemaBad : Schema :=
  [("addr_state", "string"), ("loan_status", "string"), ("loan_amnt", "string"),
   ("grade", "string"), ("id", "bigint")]

/-- A row of the demo's `incorrect_data` frame. -/
def rowBad : Row :=
  [("addr_state", "PARIS"), ("loan_status", "fully Paid"), ("loan_amnt", "2500"),
   ("grade", "A"), ("id", "9999998")]

/-- The evolved schema of the demo's `data_with_zip_code` frame: the
original columns plus `zip_code`. -/
def schemaZip : Schema := schema0 ++ [("zip_code", "string")]

/-- A row of the demo's `data_with_zip_code` frame. -/
def rowZip : Row :=
  [("addr_state", "PARIS"), ("loan_status", "fully Paid"), ("loan_amnt", "2500"),
   ("grade", "A"), ("zip_code", "75010"), ("id", "9999998")]

/-! ### Claim theorems -/

/-- C4: Log Store `append(entry, expectedVersion)` fails with
`ConflictError` exactly when the log's current head version differs from
`expectedVersion`; it is atomic — on success the entry becomes fully
visible as the one new head entry, with the previous log an unchanged
prefix, and on failure only the error is returned, so the log value the
readers see is unchanged and a partially written entry is never
visible. -/
theorem appendEntry_contract (log : Log) (e : CommitEntry) (ev : Option Nat) :
    (headVersionOpt log = ev →
      appendEntry log e ev = .ok (log ++ [withVersion e log.length])) ∧
    (headVersionOpt log ≠ ev →
      appendEntry log e ev = .error .ConflictError) := by
  constructor
  · intro h
    simp [appendEntry, h]
  · intro h
    simp [appendEntry, h]

/-- Witness for C4 at a concrete log: the matching expected version
appends, a stale expected version conflicts. -/
theorem appendEntry_contract_witness :
    appendEntry demoLog commitW (some 0) = .ok (demoLog ++ [withVersion commitW 1]) ∧
    appendEntry demoLog commitW (some 7) = .error .ConflictError :=
  ⟨(appendEntry_contract demoLog commitW (some 0)).1 (by decide),
   (appendEntry_contract demoLog commitW (some 7)).2 (by decide)⟩

/-- C3: for every log and versions v0 ≤ v, resuming from a checkpoint
taken at v0 and replaying only the commits after it reproduces exactly the
snapshot obtained by replaying the whole log from version 0 up to v:
checkpoints are a pure optimization and never change snapshot
construction. -/
theorem checkpoint_replay_equivalent (log : Log) (v0 v : Nat) (h : v0 ≤ v) :
    resumeFromCheckpoint log v0 v = replayUpTo log v := by
  unfold resumeFromCheckpoint checkpointAt replayUpTo
  have h1 : log.take (v0 + 1) = (log.take (v + 1)).take (v0 + 1) := by
    rw [List.take_take]
    congr 1
    omega
  rw [h1, ← replayLoop_append, List.take_append_drop]

/-- Witness for C3 at a concrete two-commit log: checkpoint at version 0,
resume to version 1. -/
theorem checkpoint_replay_equivalent_witness :
    (0 : Nat) ≤ 1 ∧ resumeFromCheckpoint demoLog2 0 1 = replayUpTo demoLog2 1 :=
  ⟨by decide, checkpoint_replay_equivalent demoLog2 0 1 (by decide)⟩

/-- C9: the log invariant is preserved by every operation — a committed
entry is never modified afterwards (the old log is an unchanged prefix of
the new one), versions always form the contiguous strictly increasing
sequence 0,1,2,… with no gaps, and the table state at any version v is
the left-fold of commits 0..v over the empty state. -/
theorem log_invariants (log : Log) (e : CommitEntry) (ev : Option Nat)
    (tx : Transaction) (op : Operation) (ts : Nat) (s : Schema) (rows : List Row)
    (evolve : Bool) (p : Row → Bool) (u : Row → Row) (cols : List ColName)
    (v : Nat) (wf : wellFormedLog log) :
    (∀ log', appendEntry log e ev = .ok log' →
      List.IsPrefix log log' ∧ wellFormedLog log') ∧
    (∀ log', commitTx log tx op ts = .ok log' →
      List.IsPrefix log log' ∧ wellFormedLog log') ∧
    (∀ log', writeAppend log s rows evolve ts = .ok log' →
      List.IsPrefix log log' ∧ wellFormedLog log') ∧
    (List.IsPrefix log (writeRowsLog log rows ts) ∧
      wellFormedLog (writeRowsLog log rows ts)) ∧
    (List.IsPrefix log (deleteWhereLog log p ts) ∧
      wellFormedLog (deleteWhereLog log p ts)) ∧
    (List.IsPrefix log (updateWhereLog log p u ts) ∧
      wellFormedLog (updateWhereLog log p u ts)) ∧
    (List.IsPrefix log (optimizeTable log cols ts) ∧
      wellFormedLog (optimizeTable log cols ts)) ∧
    replayUpTo log v = (log.take (v + 1)).foldl applyCommit initState := by
  refine ⟨?_, ?_, ?_, ?_, ?_, ?_, ?_, ?_⟩
  · intro log' h
    unfold appendEntry at h
    split at h
    · injection h with h
      subst h
      exact ⟨List.prefix_append _ _, wellFormed_append_one _ _ wf rfl⟩
    · cases h
  · intro log' h
    unfold commitTx at h
    split at h
    · cases h
    · injection h with h
      subst h
      exact ⟨List.prefix_append _ _, wellFormed_append_one _ _ wf rfl⟩
  · intro log' h
    unfold writeAppend at h
    split at h
    · injection h with h
      subst h
      exact ⟨List.prefix_append _ _, wellFormed_append_one _ _ wf rfl⟩
    · split at h
      · injection h with h
        subst h
        exact ⟨List.prefix_append _ _, wellFormed_append_one _ _ wf rfl⟩
      · cases h
  · exact ⟨List.prefix_append _ _, wellFormed_append_one _ _ wf rfl⟩
  · exact ⟨List.prefix_append _ _, wellFormed_append_one _ _ wf rfl⟩
  · exact ⟨List.prefix_append _ _, wellFormed_append_one _ _ wf rfl⟩
  · exact ⟨List.prefix_append _ _, wellFormed_append_one _ _ wf rfl⟩
  · exact replayLoop_eq_foldl initState (log.take (v + 1))

/-- Witness for C9 at a concrete well-formed log: a concrete INSERT keeps
the log a prefix-extension with contiguous versions. -/
theorem log_invariants_witness :
    wellFormedLog demoLog ∧
    (List.IsPrefix demoLog (writeRowsLog demoLog [rowIA] 200) ∧
      wellFormedLog (writeRowsLog demoLog [rowIA] 200)) :=
  ⟨by unfold wellFormedLog; decide,
    (log_invariants demoLog commitW none txDemo .WRITE 200 schema0 [rowIA] false
      pIA uGradeA [] 0 (by unfold wellFormedLog; decide)).2.2.2.1⟩

/-- C2: round trip — appending rows yields a snapshot whose rows are
exactly the previously active rows followed by the written rows (no
duplication, no loss); after a DELETE every remaining row fails the delete
predicate; after an UPDATE every row is either an untouched old row not
matching the predicate or the updated image of an old matching row (the
original matched rows are replaced); and snapshots at earlier versions are
unaffected by the later commits, so removed rows are absent only from the
later snapshots. -/
theorem round_trip (log ext : Log) (rows : List Row) (ts : Nat)
    (p : Row → Bool) (u : Row → Row) (v : Nat) (hv : v < log.length) :
    allRows (replayAll (writeRowsLog log rows ts)) = allRows (replayAll log) ++ rows ∧
    (∀ r ∈ allRows (replayAll (deleteWhereLog log p ts)), p r = false) ∧
    (∀ r ∈ allRows (replayAll (updateWhereLog log p u ts)),
      (r ∈ allRows (replayAll log) ∧ p r = false) ∨
      ∃ r0, r0 ∈ allRows (replayAll log) ∧ p r0 = true ∧ r = u r0) ∧
    replayUpTo (log ++ ext) v = replayUpTo log v := by
  refine ⟨?_, ?_, ?_, replayUpTo_stable log ext v hv⟩
  · unfold writeRowsLog
    rw [replayAll_append_one]
    unfold allRows applyCommit
    simp
  · intro r hr
    unfold deleteWhereLog at hr
    rw [replayAll_append_one] at hr
    rcases mem_allRows_commitRewrite (replayAll log) _ (fileMatches p) _
        (maxFileId log + 1) rfl rfl r hr with ⟨f, _, hq, hrf⟩ | h
    · cases hp : p r
      · rfl
      · exfalso
        have hany : f.rows.any p = true := List.any_eq_true.mpr ⟨r, hrf, hp⟩
        rw [show fileMatches p f = f.rows.any p from rfl, hany] at hq
        cases hq
    · simpa using (List.mem_filter.mp h).2
  · intro r hr
    unfold updateWhereLog at hr
    rw [replayAll_append_one] at hr
    rcases mem_allRows_commitRewrite (replayAll log) _ (fileMatches p) _
        (maxFileId log + 1) rfl rfl r hr with ⟨f, hf, hq, hrf⟩ | h
    · left
      refine ⟨mem_allRows_of_active _ f r hf hrf, ?_⟩
      cases hp : p r
      · rfl
      · exfalso
        have hany : f.rows.any p = true := List.any_eq_true.mpr ⟨r, hrf, hp⟩
        rw [show fileMatches p f = f.rows.any p from rfl, hany] at hq
        cases hq
    · rcases List.mem_map.mp h with ⟨r0, hr0, hmap⟩
      rcases List.mem_flatMap.mp hr0 with ⟨f, hf, hr0f⟩
      have hr0mem := mem_allRows_of_active _ f r0 (List.mem_of_mem_filter hf) hr0f
      cases hp : p r0
      · left
        rw [hp] at hmap
        simp at hmap
        subst hmap
        exact ⟨hr0mem, hp⟩
      · right
        rw [hp] at hmap
        simp at hmap
        exact ⟨r0, hr0mem, hp, hmap.symm⟩

/-- Witness for C2 at a concrete two-commit log: the IA insert reads back
exactly appended to the previously active rows. -/
theorem round_trip_witness :
    0 < demoLog2.length ∧
    allRows (replayAll (writeRowsLog demoLog2 [rowIA] 300)) =
      allRows (replayAll demoLog2) ++ [rowIA] :=
  ⟨by decide, (round_trip demoLog2 [] [rowIA] 300 pIA uGradeA 0 (by decide)).1⟩

/-- C1: two update transactions opened against the same snapshot. If their
predicate scopes (the file sets they read or remove) are disjoint, both
commits succeed and produce two sequential log versions; if their scopes
overlap, the first commit succeeds and the second fails with
ConcurrentModificationError and, per the OCC protocol, is discarded —
exactly one wins. -/
theorem concurrent_transactions (log0 : Log) (p1 p2 : Row → Bool)
    (u1 u2 : Row → Row) (ts1 ts2 : Nat) :
    let tx1 := beginUpdate log0 p1 u1
    let tx2 := beginUpdate log0 p2 u2
    let e1 := txEntry log0 tx1 .UPDATE ts1
    let log1 := log0 ++ [e1]
    let e2 := txEntry log1 tx2 .UPDATE ts2
    ((∀ i, i ∈ tx1.scope → i ∉ tx2.scope) →
      commitTx log0 tx1 .UPDATE ts1 = .ok log1 ∧
      commitTx log1 tx2 .UPDATE ts2 = .ok (log1 ++ [e2]) ∧
      e1.version = log0.length ∧ e2.version = log0.length + 1) ∧
    ((∃ i, i ∈ tx1.scope ∧ i ∈ tx2.scope) →
      commitTx log0 tx1 .UPDATE ts1 = .ok log1 ∧
      commitTx log1 tx2 .UPDATE ts2 = .error .ConcurrentModificationError) := by
  intro tx1 tx2 e1 log1 e2
  have hread1 : tx1.readLength = log0.length := rfl
  have hread2 : tx2.readLength = log0.length := rfl
  have hfirst : commitTx log0 tx1 .UPDATE ts1 = .ok log1 := by
    unfold commitTx
    rw [hread1, List.drop_length]
    simp [log1, e1]
  have hdrop : log1.drop tx2.readLength = [e1] := by
    rw [hread2]
    exact List.drop_left log0 [e1]
  have hrem : e1.removedFiles = tx1.scope := rfl
  have hadd : e1.addedFiles = tx1.stagedAdds := rfl
  constructor
  · intro hdisj
    refine ⟨hfirst, ?_, rfl, ?_⟩
    · have hnc : conflictsWith tx2 e1 = false := by
        unfold conflictsWith
        have hA : e1.removedFiles.any (fun i => tx2.scope.contains i) = false := by
          rw [List.any_eq_false]
          intro i hi
          rw [hrem] at hi
          simpa using hdisj i hi
        have hB : e1.addedFiles.any (fun f => tx2.scope.contains f.fileId) = false := by
          rw [List.any_eq_false]
          intro f hf
          rw [hadd] at hf
          have hfe : f = ⟨maxFileId log0 + 1,
              (((replayAll log0).activeFiles.filter (fileMatches p1)).flatMap
                DataFile.rows).map (fun r => if p1 r then u1 r else r)⟩ := by
            simpa [tx1, beginUpdate] using hf
          have hid : f.fileId = maxFileId log0 + 1 := by rw [hfe]
          have hnot : f.fileId ∉ tx2.scope := by
            intro hmem
            have hle := beginUpdate_scope_le log0 p2 u2 _ hmem
            rw [hid] at hle
            omega
          simpa using hnot
        rw [hA, hB]
        rfl
      unfold commitTx
      rw [hdrop]
      simp [hnc, log1, e2]
    · show (txEntry log1 tx2 .UPDATE ts2).version = log0.length + 1
      show log1.length = log0.length + 1
      simp [log1]
  · intro hover
    obtain ⟨i, h1, h2⟩ := hover
    refine ⟨hfirst, ?_⟩
    have hc : conflictsWith tx2 e1 = true := by
      unfold conflictsWith
      have hA : e1.removedFiles.any (fun i => tx2.scope.contains i) = true := by
        apply List.any_eq_true.mpr
        refine ⟨i, ?_, ?_⟩
        · rw [hrem]; exact h1
        · exact List.elem_eq_true_of_mem h2
      rw [hA]
      rfl
    unfold commitTx
    rw [hdrop]
    simp [hc]

/-- Witness for C1: on the demo table partitioned into a CA file and a WA
file, the CA update and the WA update have disjoint scopes and both
commit; the CA update and a second CA update overlap, so the second fails
with ConcurrentModificationError. -/
theorem concurrent_transactions_witness :
    (∀ i, i ∈ (beginUpdate demoLog pCA uGradeA).scope →
      i ∉ (beginUpdate demoLog pWA uGradeA).scope) ∧
    commitTx demoLog (beginUpdate demoLog pCA uGradeA) .UPDATE 400 =
      .ok (demoLog ++ [txEntry demoLog (beginUpdate demoLog pCA uGradeA) .UPDATE 400]) ∧
    (∃ i, i ∈ (beginUpdate demoLog pCA uGradeA).scope ∧
      i ∈ (beginUpdate demoLog pCA uGradeA).scope) ∧
    commitTx (demoLog ++ [txEntry demoLog (beginUpdate demoLog pCA uGradeA) .UPDATE 400])
      (beginUpdate demoLog pCA uGradeA) .UPDATE 401 =
      .error .ConcurrentModificationError :=
  ⟨by decide,
   ((concurrent_transactions demoLog pCA pWA uGradeA uGradeA 400 402).1 (by decide)).1,
   by decide,
   ((concurrent_transactions demoLog pCA pCA uGradeA uGradeA 400 401).2 (by decide)).2⟩

theorem projectRow_lookup (s : Schema) (r : Row) (c : ColName)
    (hc : c ∈ schemaNames s) : (projectRow s r).lookup c = some (r.lookup c) := by
  induction s with
  | nil => cases hc
  | cons col rest ih =>
    by_cases h : c = col.1
    · subst h
      simp [projectRow, List.lookup]
    · have hbeq : (c == col.1) = false := by simpa using h
      have hc' : c ∈ schemaNames rest := by
        rcases List.mem_cons.mp hc with h0 | h0
        · exact absurd h0 h
        · exact h0
      simpa [projectRow, List.lookup, hbeq] using ih hc'

/-- C5: schema enforcement — an append whose schema differs from the
table's current schema, with the evolution flag not set, fails with
SchemaMismatchError and produces no new log (so the table's log, and with
it its active schema and state, is unchanged); in particular a write whose
column set is a strict superset of the current schema is rejected without
the explicit evolution flag. -/
theorem schema_enforcement (log : Log) (s : Schema) (rows : List Row) (ts : Nat) :
    (s ≠ currentSchema log →
      writeAppend log s rows false ts = .error .SchemaMismatchError ∧
      ∀ log', writeAppend log s rows false ts ≠ .ok log') ∧
    (strictSuperset s (currentSchema log) →
      writeAppend log s rows false ts = .error .SchemaMismatchError) := by
  have key : s ≠ currentSchema log →
      writeAppend log s rows false ts = .error .SchemaMismatchError := by
    intro h
    unfold writeAppend
    simp [h]
  constructor
  · intro h
    refine ⟨key h, ?_⟩
    intro log' hc
    rw [key h] at hc
    cases hc
  · intro hsup
    apply key
    obtain ⟨_, c, hcs, hcn⟩ := hsup
    intro he
    rw [he] at hcs
    exact hcn hcs

/-- Witness for C5: the demo's mistyped `incorrect_data` append and the
zip-code append without the mergeSchema flag both fail with
SchemaMismatchError. -/
theorem schema_enforcement_witness :
    schemaBad ≠ currentSchema demoLog ∧
    writeAppend demoLog schemaBad [rowBad] false 500 = .error .SchemaMismatchError ∧
    strictSuperset schemaZip (currentSchema demoLog) ∧
    writeAppend demoLog schemaZip [rowZip] false 500 = .error .SchemaMismatchError :=
  ⟨by decide,
   ((schema_enforcement demoLog schemaBad [rowBad] 500).1 (by decide)).1,
   by unfold strictSuperset schemaNames; decide,
   (schema_enforcement demoLog schemaZip [rowZip] 500).2
     (by unfold strictSuperset schemaNames; decide)⟩

/-- C6: schema evolution — a write whose column set is a strict superset
of the current schema, with the evolution flag set, succeeds as a
SCHEMA_CHANGE commit; the resulting schema is the merge (the union of the
columns); all previously active files stay active; and a row written
before the evolution reads back under the new schema with the new column
as null. -/
theorem schema_evolution (log : Log) (s : Schema) (rows : List Row) (ts : Nat)
    (hsup : strictSuperset s (currentSchema log)) :
    writeAppend log s rows true ts = .ok (log ++ [evolveEntry log s rows ts]) ∧
    currentSchema (log ++ [evolveEntry log s rows ts]) =
      mergeSchemas (currentSchema log) s ∧
    (∀ c, c ∈ schemaNames (mergeSchemas (currentSchema log) s) ↔
      (c ∈ schemaNames (currentSchema log) ∨ c ∈ schemaNames s)) ∧
    (∀ f ∈ (replayAll log).activeFiles,
      f ∈ (replayAll (log ++ [evolveEntry log s rows ts])).activeFiles) ∧
    (∀ r : Row, ∀ c : ColName, c ∈ schemaNames s → r.lookup c = none →
      (projectRow (currentSchema (log ++ [evolveEntry log s rows ts])) r).lookup c =
        some none) := by
  have hne : s ≠ currentSchema log := by
    obtain ⟨_, c, hcs, hcn⟩ := hsup
    intro he
    rw [he] at hcs
    exact hcn hcs
  have hschema : currentSchema (log ++ [evolveEntry log s rows ts]) =
      mergeSchemas (currentSchema log) s := by
    unfold currentSchema
    rw [replayAll_append_one]
    rfl
  have hunion : ∀ c, c ∈ schemaNames (mergeSchemas (currentSchema log) s) ↔
      (c ∈ schemaNames (currentSchema log) ∨ c ∈ schemaNames s) := by
    intro c
    constructor
    · intro h
      unfold mergeSchemas schemaNames at h
      rw [List.map_append] at h
      rcases List.mem_append.mp h with h | h
      · exact Or.inl h
      · rcases List.mem_map.mp h with ⟨col, hcol, rfl⟩
        exact Or.inr (List.mem_map_of_mem _ (List.mem_of_mem_filter hcol))
    · intro h
      unfold mergeSchemas schemaNames
      rw [List.map_append]
      apply List.mem_append.mpr
      by_cases hcur : c ∈ schemaNames (currentSchema log)
      · exact Or.inl hcur
      · rcases h with h | h
        · exact absurd h hcur
        · right
          rcases List.mem_map.mp h with ⟨col, hcol, rfl⟩
          apply List.mem_map_of_mem
          apply List.mem_filter.mpr
          refine ⟨hcol, ?_⟩
          simp
          intro x hx
          have hmm := List.mem_map_of_mem Prod.fst hx
          exact hcur hmm
  refine ⟨?_, hschema, hunion, ?_, ?_⟩
  · unfold writeAppend
    simp [hne]
  · intro f hf
    rw [replayAll_append_one]
    unfold applyCommit evolveEntry
    simp
    exact Or.inl hf
  · intro r c hcs hnone
    rw [hschema, projectRow_lookup _ r c ((hunion c).mpr (Or.inr hcs)), hnone]

/-- Witness for C6: the demo's mergeSchema append of the zip-code data
succeeds, and the pre-evolution CA row reads back with zip_code null. -/
theorem schema_evolution_witness :
    strictSuperset schemaZip (currentSchema demoLog) ∧
    writeAppend demoLog schemaZip [rowZip] true 600 =
      .ok (demoLog ++ [evolveEntry demoLog schemaZip [rowZip] 600]) ∧
    (projectRow (currentSchema (demoLog ++ [evolveEntry demoLog schemaZip [rowZip] 600]))
      rowCA).lookup "zip_code" = some none :=
  ⟨by unfold strictSuperset schemaNames; decide,
   (schema_evolution demoLog schemaZip [rowZip] 600
     (by unfold strictSuperset schemaNames; decide)).1,
   (schema_evolution demoLog schemaZip [rowZip] 600
     (by unfold strictSuperset schemaNames; decide)).2.2.2.2 rowCA "zip_code"
     (by decide) (by decide)⟩

theorem lastLE_spec_none (ts : List Nat) (t : Nat) (h : lastLE ts t = none) :
    ∀ j (hj : j < ts.length), t < ts.get ⟨j, hj⟩ := by
  induction ts with
  | nil =>
    intro j hj
    exact absurd hj (Nat.not_lt_zero j)
  | cons x rest ih =>
    unfold lastLE at h
    cases hrec : lastLE rest t with
    | some i' =>
      rw [hrec] at h
      cases h
    | none =>
      rw [hrec] at h
      by_cases hx : x ≤ t
      · rw [if_pos hx] at h
        cases h
      · rw [if_neg hx] at h
        intro j hj
        cases j with
        | zero => simpa using Nat.lt_of_not_le hx
        | succ j' =>
          have hj' : j' < rest.length := by simpa using hj
          exact ih hrec j' hj'

theorem lastLE_spec_some (ts : List Nat) (t : Nat) :
    ∀ i, lastLE ts t = some i →
      ∃ hi : i < ts.length, ts.get ⟨i, hi⟩ ≤ t ∧
        ∀ j (hj : j < ts.length), ts.get ⟨j, hj⟩ ≤ t → j ≤ i := by
  induction ts with
  | nil =>
    intro i h
    cases h
  | cons x rest ih =>
    intro i h
    unfold lastLE at h
    cases hrec : lastLE rest t with
    | some i' =>
      rw [hrec] at h
      injection h with h
      subst h
      obtain ⟨hi', hle, hmax⟩ := ih i' hrec
      refine ⟨by simpa using Nat.succ_lt_succ hi', hle, ?_⟩
      intro j hj hjle
      cases j with
      | zero => exact Nat.zero_le _
      | succ j' =>
        have hj' : j' < rest.length := by simpa using hj
        have := hmax j' hj' hjle
        omega
    | none =>
      rw [hrec] at h
      by_cases hx : x ≤ t
      · rw [if_pos hx] at h
        injection h with h
        subst h
        refine ⟨by simp, hx, ?_⟩
        intro j hj hjle
        cases j with
        | zero => exact Nat.le_refl 0
        | succ j' =>
          exfalso
          have hj' : j' < rest.length := by simpa using hj
          have hgt := lastLE_spec_none rest t hrec j' hj'
          have hle : rest.get ⟨j', hj'⟩ ≤ t := hjle
          omega
      · rw [if_neg hx] at h
        cases h

/-- C7: time travel — reading by version returns the snapshot as of that
commit, unaffected by any later commits; reading by timestamp resolves to
the latest version whose commit timestamp is ≤ the requested one (its
timestamp is ≤ t and every version with timestamp ≤ t is no later), and
fails with NotFoundError exactly when every commit's timestamp exceeds the
requested one. -/
theorem time_travel (log ext : Log) (v t : Nat) :
    (v < log.length →
      snapshotAtVersion (log ++ ext) v = .ok (replayUpTo log v)) ∧
    (∀ w, versionAtTimestamp log t = some w →
      ∃ hw : w < log.length,
        (log.get ⟨w, hw⟩).timestamp ≤ t ∧
        (∀ j (hj : j < log.length), (log.get ⟨j, hj⟩).timestamp ≤ t → j ≤ w) ∧
        snapshotAtTimestamp log t = .ok (replayUpTo log w)) ∧
    (versionAtTimestamp log t = none →
      snapshotAtTimestamp log t = .error .NotFoundError ∧
      ∀ j (hj : j < log.length), t < (log.get ⟨j, hj⟩).timestamp) := by
  refine ⟨?_, ?_, ?_⟩
  · intro hv
    unfold snapshotAtVersion
    rw [if_pos (by simp; omega)]
    rw [replayUpTo_stable log ext v hv]
  · intro w hw
    obtain ⟨hi, hle, hmax⟩ :=
      lastLE_spec_some (log.map CommitEntry.timestamp) t w hw
    have hwlen : w < log.length := by simpa using hi
    refine ⟨hwlen, ?_, ?_, ?_⟩
    · have : (log.map CommitEntry.timestamp).get ⟨w, hi⟩ =
          (log.get ⟨w, hwlen⟩).timestamp := by simp
      rw [this] at hle
      exact hle
    · intro j hj hjle
      have hj' : j < (log.map CommitEntry.timestamp).length := by simpa using hj
      apply hmax j hj'
      have : (log.map CommitEntry.timestamp).get ⟨j, hj'⟩ =
          (log.get ⟨j, hj⟩).timestamp := by simp
      rw [this]
      exact hjle
    · unfold snapshotAtTimestamp
      rw [hw]
  · intro hnone
    constructor
    · unfold snapshotAtTimestamp
      rw [hnone]
    · intro j hj
      have hj' : j < (log.map CommitEntry.timestamp).length := by simpa using hj
      have := lastLE_spec_none (log.map CommitEntry.timestamp) t hnone j hj'
      have heq : (log.map CommitEntry.timestamp).get ⟨j, hj'⟩ =
          (log.get ⟨j, hj⟩).timestamp := by simp
      rw [heq] at this
      exact this

/-- Witness for C7: on the two-commit demo log (timestamps 100 and 200),
reading version 0 under two later commits returns the version-0 snapshot,
and timestamp 150 resolves to version 0. -/
theorem time_travel_witness :
    0 < demoLog.length ∧
    snapshotAtVersion (demoLog ++ [commitW]) 0 = .ok (replayUpTo demoLog 0) ∧
    versionAtTimestamp demoLog2 150 = some 0 ∧
    snapshotAtTimestamp demoLog2 150 = .ok (replayUpTo demoLog2 0) ∧
    (versionAtTimestamp demoLog2 50 = none ∧
      snapshotAtTimestamp demoLog2 50 = .error .NotFoundError) :=
  ⟨by decide,
   (time_travel demoLog [commitW] 0 150).1 (by decide),
   by decide,
   (by
     obtain ⟨_, _, _, h4⟩ :=
       (time_travel demoLog2 [] 0 150).2.1 0 (by decide)
     exact h4),
   by decide,
   ((time_travel demoLog2 [] 0 50).2.2 (by decide)).1⟩

/-- C8: MERGE with "update on match, insert on no-match" over a source
with ids 1 and 2 and a target holding one row with id 1: the id-1 target
row has its amount updated to the source's amount, the id-2 source row is
newly inserted at the end, and every other target row is unchanged in
place. -/
theorem merge_update_insert (pre post : List Row) (t1 s1 s2 : Row)
    (ht1 : t1.lookup "id" = some "1")
    (hs1 : s1.lookup "id" = some "1")
    (hs2 : s2.lookup "id" = some "2")
    (hpre : ∀ r ∈ pre, r.lookup "id" ≠ some "1" ∧ r.lookup "id" ≠ some "2")
    (hpost : ∀ r ∈ post, r.lookup "id" ≠ some "1" ∧ r.lookup "id" ≠ some "2") :
    mergeRows (pre ++ t1 :: post) [s1, s2] "id" "loan_amnt" =
      pre ++ ((applyMatch t1 "loan_amnt" s1 :: post) ++ [s2]) := by
  have hother : ∀ r : Row, r.lookup "id" ≠ some "1" → r.lookup "id" ≠ some "2" →
      List.find? (fun s => s.lookup "id" == r.lookup "id") [s1, s2] = none := by
    intro r h1 h2
    have d1 : (s1.lookup "id" == r.lookup "id") = false := by
      rw [hs1]
      exact beq_eq_false_iff_ne.mpr (fun he => h1 he.symm)
    have d2 : (s2.lookup "id" == r.lookup "id") = false := by
      rw [hs2]
      exact beq_eq_false_iff_ne.mpr (fun he => h2 he.symm)
    simp [List.find?, d1, d2]
  have hft1 : List.find? (fun s => s.lookup "id" == t1.lookup "id") [s1, s2] = some s1 := by
    have d1 : (s1.lookup "id" == t1.lookup "id") = true := by
      rw [hs1, ht1]
      decide
    simp [List.find?, d1]
  have hany1 : (pre ++ t1 :: post).any (fun r => r.lookup "id" == s1.lookup "id") = true := by
    apply List.any_eq_true.mpr
    refine ⟨t1, by simp, ?_⟩
    rw [ht1, hs1]
    decide
  have hany2 : (pre ++ t1 :: post).any (fun r => r.lookup "id" == s2.lookup "id") = false := by
    rw [List.any_eq_false]
    intro r hr
    have hrne : r.lookup "id" ≠ some "2" := by
      rcases List.mem_append.mp hr with h | h
      · exact (hpre r h).2
      · rcases List.mem_cons.mp h with h0 | h0
        · subst h0
          rw [ht1]
          decide
        · exact (hpost r h0).2
    have : (r.lookup "id" == s2.lookup "id") = false := by
      rw [hs2]
      exact beq_eq_false_iff_ne.mpr hrne
    simp [this]
  have hfilter : [s1, s2].filter
      (fun s => !((pre ++ t1 :: post).any (fun r => r.lookup "id" == s.lookup "id"))) =
      [s2] := by
    simp [List.filter, hany1, hany2]
  have hmapfn : ∀ (l : List Row),
      (∀ r ∈ l, r.lookup "id" ≠ some "1" ∧ r.lookup "id" ≠ some "2") →
      l.map (fun r =>
        ((List.find? (fun s => s.lookup "id" == r.lookup "id") [s1, s2]).map
          (applyMatch r "loan_amnt")).getD r) = l := by
    intro l hl
    rw [show l.map (fun r =>
        ((List.find? (fun s => s.lookup "id" == r.lookup "id") [s1, s2]).map
          (applyMatch r "loan_amnt")).getD r) = l.map id from
      List.map_congr_left (fun r hr => by
        simp [hother r (hl r hr).1 (hl r hr).2]), List.map_id]
  unfold mergeRows
  rw [hfilter, List.map_append, List.map_cons, hmapfn pre hpre, hmapfn post hpost,
    hft1, List.append_assoc]
  simp

/-- Witness for C8: the demo's PARIS loans — target rows with ids 3 and 1
(amount 999), source rows with ids 1 (amount 500) and 2; the merge updates
id 1's amount to 500, keeps id 3 unchanged, and inserts id 2. -/
theorem merge_update_insert_witness :
    mergeRows
      [[("addr_state", "TX"), ("loan_amnt", "7"), ("id", "3")],
       [("addr_state", "PARIS"), ("loan_amnt", "999"), ("id", "1")]]
      [[("addr_state", "PARIS"), ("loan_amnt", "500"), ("id", "1")],
       [("addr_state", "PARIS"), ("loan_amnt", "100"), ("id", "2")]]
      "id" "loan_amnt" =
    [[("addr_state", "TX"), ("loan_amnt", "7"), ("id", "3")],
     [("addr_state", "PARIS"), ("loan_amnt", "500"), ("id", "1")],
     [("addr_state", "PARIS"), ("loan_amnt", "100"), ("id", "2")]] := by
  have h := merge_update_insert
    [[("addr_state", "TX"), ("loan_amnt", "7"), ("id", "3")]] []
    [("addr_state", "PARIS"), ("loan_amnt", "999"), ("id", "1")]
    [("addr_state", "PARIS"), ("loan_amnt", "500"), ("id", "1")]
    [("addr_state", "PARIS"), ("loan_amnt", "100"), ("id", "2")]
    (by decide) (by decide) (by decide) (by decide) (by decide)
  simpa using h

theorem flatMap_congr_mem {α β : Type} (l : List α) (f g : α → List β)
    (h : ∀ a ∈ l, f a = g a) : l.flatMap f = l.flatMap g := by
  induction l with
  | nil => rfl
  | cons a rest ih =>
    rw [List.flatMap_cons, List.flatMap_cons, h a (List.mem_cons_self a rest),
      ih (fun b hb => h b (List.mem_cons_of_mem a hb))]

theorem find?_filter_of_imp {α : Type} (l : List α) (p q : α → Bool)
    (h : ∀ a, p a = true → q a = true) : (l.filter q).find? p = l.find? p := by
  induction l with
  | nil => rfl
  | cons a rest ih =>
    rw [List.filter_cons]
    cases hq : q a
    · rw [if_neg (by simp)]
      cases hp : p a
      · rw [ih, List.find?_cons_of_neg _ (by simp [hp])]
      · exact absurd (h a hp) (by simp [hq])
    · rw [if_pos rfl]
      cases hp : p a
      · rw [List.find?_cons_of_neg _ (by simp [hp]),
          List.find?_cons_of_neg _ (by simp [hp]), ih]
      · rw [List.find?_cons_of_pos _ (by simp [hp]),
          List.find?_cons_of_pos _ (by simp [hp])]

theorem fetch_filter_vacuum (store : List DataFile) (active : List Nat) (fid : Nat)
    (hfid : fid ∈ active) :
    fetch (store.filter (fun f => active.contains f.fileId)) fid = fetch store fid := by
  unfold fetch
  rw [find?_filter_of_imp]
  intro f hpf
  have hfe : f.fileId = fid := of_decide_eq_true hpf
  rw [hfe]
  exact List.elem_eq_true_of_mem hfid

theorem clusterSort_perm (cols : List ColName) (rows : List Row) :
    (clusterSort cols rows).Perm rows := by
  unfold clusterSort
  split
  · exact List.Perm.refl rows
  · exact List.mergeSort_perm rows _

/-- C10: OPTIMIZE (with or without cluster columns) changes only the
physical layout — for every predicate, scanning the snapshot produced by
the OPTIMIZE/ZORDER commit returns exactly the rows (as a multiset) that
scanning the snapshot immediately before it returns; and a subsequent
zero-retention VACUUM deletes only physically stored files the current
snapshot does not reference, leaving every scan at the current version
unchanged. -/
theorem optimize_vacuum_frame (log : Log) (cols : List ColName) (ts : Nat)
    (p : Row → Bool) (tbl : Table) :
    (scan (replayAll (optimizeTable log cols ts)) p).Perm
      (scan (replayAll log) p) ∧
    readCurrent (vacuumZero tbl) p = readCurrent tbl p := by
  constructor
  · unfold optimizeTable
    rw [replayAll_append_one]
    unfold scan applyCommit
    have hfil : (replayAll log).activeFiles.filter
        (fun f =>
          !(((replayAll log).activeFiles.map DataFile.fileId).contains f.fileId)) =
        [] := by
      rw [List.filter_eq_nil_iff]
      intro f hf
      simp
      exact ⟨f, hf, rfl⟩
    simp only [hfil, List.nil_append, List.flatMap_cons, List.flatMap_nil,
      List.append_nil]
    exact (clusterSort_perm cols _).filter p
  · unfold readCurrent vacuumZero
    apply flatMap_congr_mem
    intro fid hfid
    rw [fetch_filter_vacuum _ _ _ (by simpa using hfid)]

end DeltaCore
